import Mathlib

/-!
# Pro Active balance-sheet dashboard — verification of the core logic

A shallow embedding of the data handling of the dashboard:

* the monetary cell parser `parseMoeda` and the spreadsheet row mapper
  `handleFileUpload` (assets from columns 0–2, liabilities from columns 4–6);
* the summary-total derivation `totals` (first `isTotal` row wins);
* the persistence adapter (`saveData` / `loadData` / `clearData`) over a
  key-value store holding one JSON blob under a fixed key;
* the insight requester `getFinancialInsights` (prompt construction plus
  fallback strings around one remote text-generation call).

JavaScript numbers are modelled by `ℚ`; the JavaScript string builtins used
by the code (`toLowerCase`, `includes`, `replace`, `parseFloat`) are modelled
explicitly below.  JSON text is modelled at the level of its value tree: a
well-formed serialized blob is identified with the `Json` value it denotes,
and text that is not valid JSON is kept as raw text on which parsing fails.
-/

namespace ProActive

/-! ## JavaScript string and number primitives -/

/-- `String.prototype.toLowerCase` on one character, for the ASCII and
Latin-1 uppercase letters (enough for the Portuguese descriptions the
dashboard classifies; the letter Í lowers to í, the letter Ô to ô, …). -/
def jsToLower (c : Char) : Char :=
  if ('A' ≤ c ∧ c ≤ 'Z') ∨ ('À' ≤ c ∧ c ≤ 'Þ' ∧ c ≠ '×') then
    Char.ofNat (c.toNat + 32)
  else c

/-- `s.toLowerCase()`. -/
def strToLower (s : String) : String := ⟨s.data.map jsToLower⟩

/-- Does `needle` occur as a contiguous run inside `hay`? -/
def listIsInfix (needle hay : List Char) : Bool :=
  match hay with
  | [] => needle.isEmpty
  | _ :: t => needle.isPrefixOf hay || listIsInfix needle t

/-- `s.includes(pat)`. -/
def strIncludes (s pat : String) : Bool := listIsInfix pat.data s.data

/-- The character class `[R$\.\s]` of the money-cleaning regular expression:
the letter `R`, the dollar sign, a literal period, or whitespace. -/
def isMoneyStrip (c : Char) : Bool :=
  c = 'R' || c = '$' || c = '.' || c.isWhitespace

/-- Replacing a comma by a period with `String.prototype.replace`: only
the first comma is replaced. -/
def replaceFirstComma : List Char → List Char
  | [] => []
  | c :: r => if c = ',' then '.' :: r else c :: replaceFirstComma r

/-- Numeric value of a run of decimal digits. -/
def digitsToNat (ds : List Char) : Nat :=
  ds.foldl (fun a c => 10 * a + (c.toNat - '0'.toNat)) 0

/-- Exponent part of a JavaScript float literal, after the `e`/`E`:
an optional sign followed by digits; an exponent with no digits is
not part of the parsed prefix, so it contributes `0`. -/
def expPartVal (cs : List Char) : Int :=
  match cs with
  | '-' :: r =>
    let d := r.takeWhile Char.isDigit
    if d.isEmpty then 0 else -(digitsToNat d : Int)
  | '+' :: r =>
    let d := r.takeWhile Char.isDigit
    if d.isEmpty then 0 else (digitsToNat d : Int)
  | _ =>
    let d := cs.takeWhile Char.isDigit
    if d.isEmpty then 0 else (digitsToNat d : Int)

/-- The shape of the longest float-literal prefix of a string: whether a
minus sign leads, the integer-part digit value, the fraction digit value,
the fraction length, and the exponent; `none` when no digit is present
(the `NaN` case). -/
def scanFloat (s : String) : Option (Bool × Nat × Nat × Nat × Int) :=
  let cs := s.data
  let signRest : Bool × List Char :=
    match cs with
    | '-' :: r => (true, r)
    | '+' :: r => (false, r)
    | _ => (false, cs)
  let intPart := signRest.2.takeWhile Char.isDigit
  let rest1 := signRest.2.dropWhile Char.isDigit
  let fracRest : List Char × List Char :=
    match rest1 with
    | '.' :: r => (r.takeWhile Char.isDigit, r.dropWhile Char.isDigit)
    | _ => ([], rest1)
  if intPart.isEmpty && fracRest.1.isEmpty then Option.none
  else
    let e : Int :=
      match fracRest.2 with
      | 'e' :: r => expPartVal r
      | 'E' :: r => expPartVal r
      | _ => 0
    some (signRest.1, digitsToNat intPart, digitsToNat fracRest.1, fracRest.1.length, e)

/-- JavaScript `parseFloat` on strings containing no leading whitespace,
restricted to finite decimal literals: an optional sign, integer digits,
an optional fraction, an optional exponent; the longest valid prefix is
parsed and anything after it is ignored; `none` models `NaN`. -/
def jsParseFloat (s : String) : Option ℚ :=
  match scanFloat s with
  | Option.none => Option.none
  | Option.some (neg, ip, fp, fl, e) =>
    some ((if neg then -1 else 1) * ((ip : ℚ) + (fp : ℚ) / (10 : ℚ) ^ fl) * (10 : ℚ) ^ e)

/-- `parseFloat(s) || 0`: `NaN` collapses to `0`, and a parsed `0` (falsy)
is replaced by the literal `0` — the same value. -/
def parseFloatOrZero (s : String) : ℚ :=
  match jsParseFloat s with
  | Option.none => 0
  | Option.some q => if q = 0 then 0 else q

/-- JavaScript `String(x)` on a number, modelled exactly for the integral
values that can occur in description cells; the shortest-round-trip float
rendering of non-integral values is not modelled and is rendered as
numerator/denominator. -/
def ratToString (q : ℚ) : String :=
  if q.den = 1 then toString q.num
  else toString q.num ++ "/" ++ toString q.den

/-! ## Raw spreadsheet cells and the monetary parser -/

/-- A raw cell handed to the row mapper by the spreadsheet reader:
absent (`undefined`), a number, or text. -/
inductive CellValue where
  | none
  | num (q : ℚ)
  | str (s : String)
deriving DecidableEq, Repr

/-- JavaScript truthiness of a cell: `undefined`, `0` and `""` are falsy. -/
def CellValue.truthy : CellValue → Bool
  | CellValue.none => false
  | CellValue.num q => decide (q ≠ 0)
  | CellValue.str s => decide (s ≠ "")

/-- JavaScript `String(cell)` / `cell.toString()`. -/
def cellToString : CellValue → String
  | CellValue.none => "undefined"
  | CellValue.num q => ratToString q
  | CellValue.str s => s

/-- The monetary cell parser `parseMoeda`: falsy values yield `0`, numbers
are returned as they are, and text is cleaned by the regular expression
`[R$\.\s]` (global), has its first comma turned into a period, and is fed
to `parseFloat`, with `|| 0` absorbing a failed parse. -/
def parseMoeda (valor : CellValue) : ℚ :=
  if valor.truthy = false then 0
  else
    match valor with
    | CellValue.none => 0
    | CellValue.num q => q
    | CellValue.str s =>
      let clean : String := ⟨replaceFirstComma (s.data.filter (fun c => !isMoneyStrip c))⟩
      parseFloatOrZero clean

/-- The monetary parser as the specification words it: empty/null/undefined
input yields `0`; numeric input is used unchanged; otherwise the text is
stripped of the currency symbol, literal periods and whitespace, its decimal
comma becomes a period, and the result is parsed as a float, `0` on failure. -/
def specParseMoeda : CellValue → ℚ
  | CellValue.none => 0
  | CellValue.num q => q
  | CellValue.str s =>
    if s = "" then 0
    else parseFloatOrZero ⟨replaceFirstComma (s.data.filter (fun c => !isMoneyStrip c))⟩

/-! ## The row mapper `handleFileUpload` -/

/-- One balance-sheet line item (`FinancialItem` of `types.ts`). -/
structure FinancialItem where
  desc : String
  v25 : ℚ
  v24 : ℚ
  isTotal : Bool
  isGroup : Bool
deriving DecidableEq, Repr

/-- `row[i]`: indexing past the end of a row yields `undefined`. -/
def getCell (row : List CellValue) (i : Nat) : CellValue :=
  row.getD i CellValue.none

/-- The asset item pushed for a row whose column 0 is truthy:
description from column 0, values from columns 1 and 2, classification
from the lower-cased description. -/
def mkAtivoItem (row : List CellValue) : FinancialItem :=
  let desc := cellToString (getCell row 0)
  { desc := desc
    v25 := parseMoeda (getCell row 1)
    v24 := parseMoeda (getCell row 2)
    isTotal := strIncludes (strToLower desc) "total"
    isGroup := strIncludes (strToLower desc) "circulante" }

/-- The liability item pushed for a row whose column 4 is truthy:
description from column 4, values from columns 5 and 6. -/
def mkPassivoItem (row : List CellValue) : FinancialItem :=
  let desc := cellToString (getCell row 4)
  { desc := desc
    v25 := parseMoeda (getCell row 5)
    v24 := parseMoeda (getCell row 6)
    isTotal := strIncludes (strToLower desc) "total"
    isGroup := strIncludes (strToLower desc) "circulante" ||
               strIncludes (strToLower desc) "líquido" }

/-- The body of `rows.forEach((row, idx) => ...)`: row `0` is skipped, and
each later row contributes an asset item when its column 0 is truthy and,
independently, a liability item when its column 4 is truthy. -/
def processRows : List (List CellValue) → Nat → List FinancialItem × List FinancialItem
  | [], _ => ([], [])
  | row :: rest, idx =>
    let tail := processRows rest (idx + 1)
    if idx = 0 then tail
    else
      ((if (getCell row 0).truthy then mkAtivoItem row :: tail.1 else tail.1),
       (if (getCell row 4).truthy then mkPassivoItem row :: tail.2 else tail.2))

/-- The parsing part of `handleFileUpload`: the rows of the sheet to the pair
(new asset list `nA`, new liability list `nP`). -/
def handleFileUpload (rows : List (List CellValue)) : List FinancialItem × List FinancialItem :=
  processRows rows 0

/-- Case-insensitive substring containment, as the specification words the
classification heuristics. -/
def ciContains (s pat : String) : Bool :=
  strIncludes (strToLower s) (strToLower pat)

/-! ## Dashboard aggregate and summary totals -/

/-- A financial ratio shown on the dashboard (`KPI` of `types.ts`); the two
period values are display-ready, a string or a number. -/
structure KPI where
  name : String
  v25 : String ⊕ ℚ
  v24 : String ⊕ ℚ
  description : String
  unit : Option String
deriving DecidableEq, Repr

/-- The aggregate root (`DashboardData` of `types.ts`). -/
structure DashboardData where
  ativo : List FinancialItem
  passivo : List FinancialItem
  kpis : List KPI
  lastUpdated : String
deriving DecidableEq, Repr

/-- The four summary-card figures. -/
structure Totals where
  a25 : ℚ
  a24 : ℚ
  p25 : ℚ
  p24 : ℚ
deriving DecidableEq, Repr

/-- `x?.v || 0`: an absent value, and the falsy number `0`, collapse to `0`. -/
def jsOrZero : Option ℚ → ℚ
  | Option.none => 0
  | Option.some q => if q = 0 then 0 else q

/-- The `totals` memo of the dashboard component: each figure comes from the
first `isTotal` item of its list (`Array.prototype.find`), `0` when there is
none. -/
def totals (data : Option DashboardData) : Totals :=
  match data with
  | Option.none => ⟨0, 0, 0, 0⟩
  | Option.some d =>
    let atv := d.ativo.find? (fun i => i.isTotal)
    let pas := d.passivo.find? (fun i => i.isTotal)
    { a25 := jsOrZero (atv.map (fun i => i.v25))
      a24 := jsOrZero (atv.map (fun i => i.v24))
      p25 := jsOrZero (pas.map (fun i => i.v25))
      p24 := jsOrZero (pas.map (fun i => i.v24)) }

/-! ## Persistence adapter (`services/database.ts`)

The serialized blob is modelled at the level of its JSON value tree:
`JSON.stringify` is the encoding of the aggregate into a `Json` value and
`JSON.parse` recovers the value tree of a well-formed stored text, while
stored text that is not valid JSON makes it fail. -/

/-- A JSON value tree. -/
inductive Json where
  | null
  | bool (b : Bool)
  | num (q : ℚ)
  | str (s : String)
  | arr (elems : List Json)
  | obj (fields : List (String × Json))
deriving Repr

/-- `JSON.stringify` of a `FinancialItem`, field order as in the object
literal pushed by the row mapper. -/
def encodeItem (i : FinancialItem) : Json :=
  Json.obj [("desc", Json.str i.desc), ("v25", Json.num i.v25),
            ("v24", Json.num i.v24), ("isTotal", Json.bool i.isTotal),
            ("isGroup", Json.bool i.isGroup)]

/-- A KPI period value is a string or a number. -/
def encodeKPIVal : String ⊕ ℚ → Json
  | Sum.inl s => Json.str s
  | Sum.inr q => Json.num q

/-- `JSON.stringify` of a `KPI`; an absent optional `unit` field is omitted
from the serialized object. -/
def encodeKPI (k : KPI) : Json :=
  Json.obj ([("name", Json.str k.name), ("v25", encodeKPIVal k.v25),
             ("v24", encodeKPIVal k.v24), ("description", Json.str k.description)] ++
    (match k.unit with
     | Option.none => []
     | Option.some u => [("unit", Json.str u)]))

/-- `JSON.stringify` of the whole aggregate, field order as in the
`DashboardData` object literal. -/
def encodeData (d : DashboardData) : Json :=
  Json.obj [("ativo", Json.arr (d.ativo.map encodeItem)),
            ("passivo", Json.arr (d.passivo.map encodeItem)),
            ("kpis", Json.arr (d.kpis.map encodeKPI)),
            ("lastUpdated", Json.str d.lastUpdated)]

/-- Reading a serialized `FinancialItem` back; deep equality between a
stored blob and an aggregate is stated through these decoders. -/
def decodeItem : Json → Option FinancialItem
  | Json.obj [("desc", Json.str d), ("v25", Json.num a), ("v24", Json.num b),
              ("isTotal", Json.bool t), ("isGroup", Json.bool g)] =>
    some ⟨d, a, b, t, g⟩
  | _ => Option.none

/-- Reading a KPI period value back. -/
def decodeKPIVal : Json → Option (String ⊕ ℚ)
  | Json.str s => some (Sum.inl s)
  | Json.num q => some (Sum.inr q)
  | _ => Option.none

/-- Reading a serialized `KPI` back, with or without the optional `unit`
field. -/
def decodeKPI : Json → Option KPI
  | Json.obj (("name", Json.str n) :: ("v25", j25) :: ("v24", j24) ::
              ("description", Json.str ds) :: rest) =>
    (match decodeKPIVal j25, decodeKPIVal j24, rest with
     | some a, some b, [] => some ⟨n, a, b, ds, Option.none⟩
     | some a, some b, [("unit", Json.str u)] => some ⟨n, a, b, ds, some u⟩
     | _, _, _ => Option.none)
  | _ => Option.none

/-- Decode every element of a JSON array, failing if any element fails. -/
def decodeListWith (f : Json → Option α) : List Json → Option (List α)
  | [] => some []
  | j :: r =>
    match f j, decodeListWith f r with
    | some a, some l => some (a :: l)
    | _, _ => Option.none

/-- Reading a serialized aggregate back into a `DashboardData`. -/
def decodeData : Json → Option DashboardData
  | Json.obj [("ativo", Json.arr a), ("passivo", Json.arr p),
              ("kpis", Json.arr k), ("lastUpdated", Json.str lu)] =>
    (match decodeListWith decodeItem a, decodeListWith decodeItem p,
           decodeListWith decodeKPI k with
     | some ia, some ip, some ik => some ⟨ia, ip, ik, lu⟩
     | _, _, _ => Option.none)
  | _ => Option.none

/-- A value held under a key of the key-value store of the browser: either
well-formed JSON text, identified with the value tree it denotes, or text
on which `JSON.parse` throws. -/
inductive StoredText where
  | json (j : Json)
  | invalid (s : String)

/-- The text `""` is the only falsy stored string; well-formed JSON text is
never empty. -/
def StoredText.falsy : StoredText → Bool
  | StoredText.json _ => false
  | StoredText.invalid s => decide (s = "")

/-- `JSON.parse`, with the throw on malformed text embedded as `none`. -/
def jsonParse : StoredText → Option Json
  | StoredText.json j => some j
  | StoredText.invalid _ => Option.none

/-- The key-value store of the browser (`localStorage`). -/
def Store : Type := String → Option StoredText

/-- `localStorage.setItem`. -/
def storeSet (st : Store) (k : String) (v : StoredText) : Store :=
  fun k2 => if k2 = k then some v else st k2

/-- `localStorage.removeItem`. -/
def storeRemove (st : Store) (k : String) : Store :=
  fun k2 => if k2 = k then Option.none else st k2

/-- A store with no keys set. -/
def emptyStore : Store := fun _ => Option.none

/-- The fixed storage key of the persistence adapter. -/
def STORAGE_KEY : String := "PRO_ACTIVE_DASHBOARD_DATA"

/-- `databaseService.saveData`: serialize the aggregate and overwrite the
fixed key. -/
def saveData (st : Store) (d : DashboardData) : Store :=
  storeSet st STORAGE_KEY (StoredText.json (encodeData d))

/-- What a call to `databaseService.loadData` produces: the value handed to
the caller (the parsed blob, cast to `DashboardData` without validation, or
`null`) and whether the catch branch logged a parse failure. -/
structure LoadResult where
  result : Option Json
  loggedError : Bool
deriving Repr

/-- `databaseService.loadData`: an absent or falsy stored text yields
`null`; malformed stored text is caught, logged and yields `null`;
otherwise the parsed value tree is returned as is. -/
def loadData (st : Store) : LoadResult :=
  match st STORAGE_KEY with
  | Option.none => ⟨Option.none, false⟩
  | Option.some saved =>
    if saved.falsy then ⟨Option.none, false⟩
    else
      match jsonParse saved with
      | Option.some j => ⟨Option.some j, false⟩
      | Option.none => ⟨Option.none, true⟩

/-- `databaseService.clearData`: remove the fixed key. -/
def clearData (st : Store) : Store :=
  storeRemove st STORAGE_KEY

/-- One call against the persistence adapter. -/
inductive DbOp where
  | save (d : DashboardData)
  | load
  | clear

/-- The store after one adapter call; `loadData` only reads
(`localStorage.getItem`), so it leaves the store as it is. -/
def applyDbOp (st : Store) : DbOp → Store
  | DbOp.save d => saveData st d
  | DbOp.load => st
  | DbOp.clear => clearData st

/-- The store after a sequence of adapter calls. -/
def runOps (ops : List DbOp) (st : Store) : Store :=
  ops.foldl applyDbOp st

/-! ## Insight requester (`services/geminiService.ts`) -/

/-- Insert the pt-BR thousands separator into a reversed digit list. -/
def groupRev : List Char → List Char
  | a :: b :: c :: d :: rest => a :: b :: c :: '.' :: groupRev (d :: rest)
  | l => l
termination_by l => l.length

/-- Group the decimal digits of an integer in threes with a period, as
the pt-BR locale format does. -/
def groupThousands (ds : List Char) : List Char :=
  (groupRev ds.reverse).reverse

/-- Drop trailing zeros of a fraction-digit run. -/
def dropTrailingZeros (ds : List Char) : List Char :=
  (ds.reverse.dropWhile (fun c => c = '0')).reverse

/-- The call `toLocaleString` with the pt-BR locale on a number: sign,
thousands groups
separated by `.`, decimal comma, at most three fraction digits (the
`Intl` default), trailing zeros dropped.  Values needing more than three
fraction digits are rounded half away from zero. -/
def ptBRString (q : ℚ) : String :=
  let sign := if q < 0 then "-" else ""
  let n : Nat := (|q| * 1000 + 1 / 2).floor.toNat
  let intStr : List Char := groupThousands (toString (n / 1000)).data
  let fracNat := n % 1000
  let fracRaw := (toString fracNat).data
  let fracPadded := List.replicate (3 - fracRaw.length) '0' ++ fracRaw
  let frac := dropTrailingZeros fracPadded
  if frac.isEmpty then sign ++ ⟨intStr⟩
  else sign ++ ⟨intStr⟩ ++ "," ++ ⟨frac⟩

/-- A KPI period value interpolated into the prompt template. -/
def kpiValString : String ⊕ ℚ → String
  | Sum.inl s => s
  | Sum.inr q => ratToString q

/-- One line of the KPI block of the prompt. -/
def kpiLine (k : KPI) : String :=
  "- " ++ k.name ++ ": 2025 (" ++ kpiValString k.v25 ++ ") vs 2024 (" ++
    kpiValString k.v24 ++ ")"

/-- The prompt template of `getFinancialInsights`, as a function of the two
figures it interpolates and the KPI list. -/
def insightPromptOf (ativoTotal25 passivoTotal25 : ℚ) (kpis : List KPI) : String :=
  "\n    Analise os seguintes dados financeiros da Pro Active para o ano de 2025 comparado a 2024:\n    \n    ATIVO TOTAL 2025: R$ " ++
  ptBRString ativoTotal25 ++
  "\n    PASSIVO TOTAL 2025: R$ " ++
  ptBRString passivoTotal25 ++
  "\n    \n    KPIs Atuais:\n    " ++
  String.intercalate "\n" (kpis.map kpiLine) ++
  "\n    \n    Por favor, forneça um resumo executivo em português (formato Markdown) com:\n    1. Uma análise rápida da saúde financeira.\n    2. Identificação de 3 pontos críticos ou de melhoria.\n    3. Uma conclusão estratégica curta.\n    Seja profissional e direto como um Head Controller.\n  "

/-- The prompt built for a given aggregate: the current-period figures come
from the first `isTotal` item of each list, `|| 0` when there is none. -/
def insightPrompt (data : DashboardData) : String :=
  let ativoTotal25 := jsOrZero ((data.ativo.find? (fun i => i.isTotal)).map (fun i => i.v25))
  let passivoTotal25 := jsOrZero ((data.passivo.find? (fun i => i.isTotal)).map (fun i => i.v25))
  insightPromptOf ativoTotal25 passivoTotal25 data.kpis

/-- The outcome of the one remote `generateContent` call: a response whose
`text` field is the given string, or any thrown failure (network, auth,
malformed response). -/
inductive RemoteOutcome where
  | success (text : String)
  | failure
deriving DecidableEq, Repr

/-- Fallback returned when the call succeeds with an empty (falsy) body. -/
def emptyInsightsMsg : String := "Não foi possível gerar insights no momento."

/-- Fallback returned from the catch branch when the remote call throws. -/
def aiErrorMsg : String := "Erro ao conectar com o serviço de IA. Verifique sua conexão."

/-- `getFinancialInsights`: build the prompt, invoke the remote boundary
once with it, and return `response.text || emptyInsightsMsg`, or
`aiErrorMsg` from the catch branch — never an exception. -/
def getFinancialInsights (remote : String → RemoteOutcome) (data : DashboardData) : String :=
  match remote (insightPrompt data) with
  | RemoteOutcome.success t => if t = "" then emptyInsightsMsg else t
  | RemoteOutcome.failure => aiErrorMsg

/-! ## Claim theorems: parsing -/

/-- **C1.** For every raw cell value, `parseMoeda` behaves as specified:
empty/null/undefined yields `0`; a numeric value is used unchanged;
otherwise the text is stripped of the currency symbol, literal periods and
whitespace, its decimal comma becomes a period and the result is parsed as
a float, `0` on parse failure — in particular `"R$ 1.234,56"` yields
`1234.56` and the number `500` yields `500`. -/
theorem parseMoeda_spec :
    (∀ v : CellValue, parseMoeda v = specParseMoeda v) ∧
    parseMoeda CellValue.none = 0 ∧
    parseMoeda (CellValue.str "") = 0 ∧
    (∀ q : ℚ, parseMoeda (CellValue.num q) = q) ∧
    parseMoeda (CellValue.str "R$ 1.234,56") = (1234.56 : ℚ) ∧
    parseMoeda (CellValue.num 500) = 500 := by
  have hnum : ∀ q : ℚ, parseMoeda (CellValue.num q) = q := by
    intro q
    by_cases h : q = 0 <;> simp [parseMoeda, CellValue.truthy, h]
  have hconc : parseMoeda (CellValue.str "R$ 1.234,56") = (1234.56 : ℚ) := by
    have h2 : (⟨replaceFirstComma
        (List.filter (fun c => !isMoneyStrip c) "R$ 1.234,56".data)⟩ : String) = "1234.56" := by
      decide
    have h3 : scanFloat "1234.56" = some (false, 1234, 56, 2, 0) := by decide
    simp only [parseMoeda, CellValue.truthy]
    rw [if_neg (by decide), h2]
    simp only [parseFloatOrZero, jsParseFloat, h3]
    norm_num
  refine ⟨?_, rfl, by simp [parseMoeda, CellValue.truthy], hnum, hconc, hnum 500⟩
  intro v
  cases v with
  | none => rfl
  | num q =>
    by_cases h : q = 0 <;> simp [parseMoeda, specParseMoeda, CellValue.truthy, h]
  | str s =>
    by_cases h : s = "" <;> simp [parseMoeda, specParseMoeda, CellValue.truthy, h]

/-- For a nonzero starting index (the body never sees index `0` again after
the head), `processRows` keeps exactly the rows with a truthy column 0 as
assets and, independently, the rows with a truthy column 4 as liabilities,
in row order. -/
theorem processRows_pos (l : List (List CellValue)) :
    ∀ idx, idx ≠ 0 →
      processRows l idx =
        ((l.filter (fun r => (getCell r 0).truthy)).map mkAtivoItem,
         (l.filter (fun r => (getCell r 4).truthy)).map mkPassivoItem) := by
  induction l with
  | nil => intro idx h; rfl
  | cons row rest ih =>
    intro idx h
    simp only [processRows, if_neg h]
    rw [ih (idx + 1) (Nat.succ_ne_zero idx)]
    by_cases h0 : (getCell row 0).truthy <;> by_cases h4 : (getCell row 4).truthy <;>
      simp [h0, h4, List.filter_cons]

/-- `handleFileUpload` drops the header row and filters/maps the rest. -/
theorem handleFileUpload_eq (rows : List (List CellValue)) :
    handleFileUpload rows =
      (((rows.drop 1).filter (fun r => (getCell r 0).truthy)).map mkAtivoItem,
       ((rows.drop 1).filter (fun r => (getCell r 4).truthy)).map mkPassivoItem) := by
  cases rows with
  | nil => rfl
  | cons r0 rest =>
    show processRows (r0 :: rest) 0 = _
    simp only [processRows, if_pos rfl]
    rw [processRows_pos rest 1 one_ne_zero]
    rfl

/-- **C2.** The parser discards row 0 unconditionally; every later row
contributes an asset item built from its columns 0–2 exactly when column 0
is truthy and, independently, a liability item built from its columns 4–6
exactly when column 4 is truthy — so a row can feed both lists, one, or
neither, and row 0 never yields an item. -/
theorem handleFileUpload_rows (rows : List (List CellValue)) :
    (handleFileUpload rows).1 =
      ((rows.drop 1).filter (fun r => (getCell r 0).truthy)).map mkAtivoItem ∧
    (handleFileUpload rows).2 =
      ((rows.drop 1).filter (fun r => (getCell r 4).truthy)).map mkPassivoItem := by
  rw [handleFileUpload_eq]
  exact ⟨rfl, rfl⟩

/-- Finding the first match in a filtered-and-mapped list is finding the
earliest qualifying source element. -/
theorem find?_map_filter (p : List CellValue → Bool) (f : List CellValue → FinancialItem)
    (q : FinancialItem → Bool) (l : List (List CellValue)) :
    ((l.filter p).map f).find? q =
      l.findSome? (fun r => if p r && q (f r) then some (f r) else Option.none) := by
  induction l with
  | nil => rfl
  | cons r rest ih =>
    by_cases hp : p r
    · by_cases hq : q (f r) <;>
        simp [List.filter_cons, hp, hq, List.findSome?_cons, List.find?_cons, ih]
    · simp [List.filter_cons, hp, List.findSome?_cons, ih]

/-- **C9.** The emitted asset items keep the relative order of their source
rows, and so do the liability items; hence the first `isTotal` match in
either emitted list is the total row occurring earliest in the sheet. -/
theorem parse_preserves_order (rows : List (List CellValue)) :
    (handleFileUpload rows).1.Sublist ((rows.drop 1).map mkAtivoItem) ∧
    (handleFileUpload rows).2.Sublist ((rows.drop 1).map mkPassivoItem) ∧
    (handleFileUpload rows).1.find? (fun i => i.isTotal) =
      (rows.drop 1).findSome? (fun r =>
        if (getCell r 0).truthy && (mkAtivoItem r).isTotal
        then some (mkAtivoItem r) else Option.none) ∧
    (handleFileUpload rows).2.find? (fun i => i.isTotal) =
      (rows.drop 1).findSome? (fun r =>
        if (getCell r 4).truthy && (mkPassivoItem r).isTotal
        then some (mkPassivoItem r) else Option.none) := by
  rw [handleFileUpload_eq]
  refine ⟨List.Sublist.map mkAtivoItem (List.filter_sublist _),
          List.Sublist.map mkPassivoItem (List.filter_sublist _),
          find?_map_filter _ _ _ _, find?_map_filter _ _ _ _⟩

/-- **C3.** The `isTotal` flag of an emitted item holds exactly when its
description
contains `"total"` case-insensitively, with no accent normalization; an
the `isGroup` flag of an asset holds exactly when it contains
`"circulante"`, that of a liability exactly when it contains
`"circulante"` or `"líquido"`; the
asset description `"Total do Ativo Circulante"` gets both flags at once. -/
theorem classification_spec :
    (∀ row, (mkAtivoItem row).isTotal = ciContains (mkAtivoItem row).desc "total") ∧
    (∀ row, (mkAtivoItem row).isGroup = ciContains (mkAtivoItem row).desc "circulante") ∧
    (∀ row, (mkPassivoItem row).isTotal = ciContains (mkPassivoItem row).desc "total") ∧
    (∀ row, (mkPassivoItem row).isGroup =
      (ciContains (mkPassivoItem row).desc "circulante" ||
       ciContains (mkPassivoItem row).desc "líquido")) ∧
    (mkAtivoItem [CellValue.str "Total do Ativo Circulante"]).isTotal = true ∧
    (mkAtivoItem [CellValue.str "Total do Ativo Circulante"]).isGroup = true ∧
    (mkPassivoItem [CellValue.none, CellValue.none, CellValue.none, CellValue.none,
                    CellValue.str "PATRIMÔNIO LÍQUIDO"]).isGroup = true ∧
    (mkPassivoItem [CellValue.none, CellValue.none, CellValue.none, CellValue.none,
                    CellValue.str "Passivo liquido"]).isGroup = false := by
  have htot : strToLower "total" = "total" := by decide
  have hcir : strToLower "circulante" = "circulante" := by decide
  have hliq : strToLower "líquido" = "líquido" := by decide
  refine ⟨?_, ?_, ?_, ?_, by decide, by decide, by decide, by decide⟩
  · intro row; simp only [mkAtivoItem, ciContains, htot]
  · intro row; simp only [mkAtivoItem, ciContains, hcir]
  · intro row; simp only [mkPassivoItem, ciContains, htot]
  · intro row; simp only [mkPassivoItem, ciContains, hliq, hcir]

/-! ## Claim theorems: summary totals -/

/-- `find?` over a list whose prefix has no match returns the first match. -/
theorem find?_append_first {α : Type} (p : α → Bool) (pre : List α) (i : α) (post : List α)
    (hpre : ∀ j ∈ pre, p j = false) (hi : p i = true) :
    (pre ++ i :: post).find? p = some i := by
  induction pre with
  | nil => simp [List.find?_cons, hi]
  | cons a r ih =>
    have ha := hpre a (List.mem_cons_self a r)
    simp only [List.cons_append, List.find?_cons, ha]
    exact ih (fun j hj => hpre j (List.mem_cons_of_mem a hj))

/-- `x?.v || 0` of a present value is that value. -/
theorem jsOrZero_some (q : ℚ) : jsOrZero (some q) = q := by
  by_cases h : q = 0 <;> simp [jsOrZero, h]

/-- **C4.** Each summary figure equals the corresponding value of the first
`isTotal` item of its list — later total rows are ignored — and `0` when no
such item exists. -/
theorem totals_first_total_row (d : DashboardData) :
    (∀ pre i post, d.ativo = pre ++ i :: post →
        (∀ j ∈ pre, j.isTotal = false) → i.isTotal = true →
        (totals (some d)).a25 = i.v25 ∧ (totals (some d)).a24 = i.v24) ∧
    ((∀ j ∈ d.ativo, j.isTotal = false) →
        (totals (some d)).a25 = 0 ∧ (totals (some d)).a24 = 0) ∧
    (∀ pre i post, d.passivo = pre ++ i :: post →
        (∀ j ∈ pre, j.isTotal = false) → i.isTotal = true →
        (totals (some d)).p25 = i.v25 ∧ (totals (some d)).p24 = i.v24) ∧
    ((∀ j ∈ d.passivo, j.isTotal = false) →
        (totals (some d)).p25 = 0 ∧ (totals (some d)).p24 = 0) := by
  refine ⟨?_, ?_, ?_, ?_⟩
  · intro pre i post heq hpre hi
    have hf : d.ativo.find? (fun x => x.isTotal) = some i := by
      rw [heq]; exact find?_append_first _ pre i post hpre hi
    simp [totals, hf, jsOrZero_some]
  · intro hall
    have hf : d.ativo.find? (fun x => x.isTotal) = Option.none := by
      simp only [List.find?_eq_none]
      intro j hj; simp [hall j hj]
    simp [totals, hf, jsOrZero]
  · intro pre i post heq hpre hi
    have hf : d.passivo.find? (fun x => x.isTotal) = some i := by
      rw [heq]; exact find?_append_first _ pre i post hpre hi
    simp [totals, hf, jsOrZero_some]
  · intro hall
    have hf : d.passivo.find? (fun x => x.isTotal) = Option.none := by
      simp only [List.find?_eq_none]
      intro j hj; simp [hall j hj]
    simp [totals, hf, jsOrZero]

/-- Witness for C4: on the asset list `[Caixa 100/50, Total do Ativo
1000/900 (total)]` the current-period asset figure is `1000`, the prior one
`900`, and the liability figures of the empty list are `0`. -/
theorem totals_first_total_row_witness :
    (totals (some { ativo := [⟨"Caixa", 100, 50, false, false⟩,
                              ⟨"Total do Ativo", 1000, 900, true, false⟩],
                    passivo := [], kpis := [], lastUpdated := "" })).a25 = 1000 ∧
    (totals (some { ativo := [⟨"Caixa", 100, 50, false, false⟩,
                              ⟨"Total do Ativo", 1000, 900, true, false⟩],
                    passivo := [], kpis := [], lastUpdated := "" })).a24 = 900 ∧
    (totals (some { ativo := [⟨"Caixa", 100, 50, false, false⟩,
                              ⟨"Total do Ativo", 1000, 900, true, false⟩],
                    passivo := [], kpis := [], lastUpdated := "" })).p25 = 0 := by
  have h := totals_first_total_row
    { ativo := [⟨"Caixa", 100, 50, false, false⟩, ⟨"Total do Ativo", 1000, 900, true, false⟩],
      passivo := [], kpis := [], lastUpdated := "" }
  have hfirst := h.1 [⟨"Caixa", 100, 50, false, false⟩]
    ⟨"Total do Ativo", 1000, 900, true, false⟩ [] rfl (by simp) rfl
  exact ⟨hfirst.1, hfirst.2, (h.2.2.2 (by simp)).1⟩

/-! ## Claim theorems: persistence -/

/-- Decoding an encoded array element-by-element recovers the list. -/
theorem decodeListWith_map {α : Type} (f : Json → Option α) (g : α → Json)
    (h : ∀ x, f (g x) = some x) (l : List α) :
    decodeListWith f (l.map g) = some l := by
  induction l with
  | nil => rfl
  | cons a r ih => simp [decodeListWith, h a, ih]

/-- A serialized line item reads back unchanged. -/
theorem decodeItem_encodeItem (i : FinancialItem) : decodeItem (encodeItem i) = some i := rfl

/-- A serialized KPI reads back unchanged, with or without `unit`. -/
theorem decodeKPI_encodeKPI (k : KPI) : decodeKPI (encodeKPI k) = some k := by
  cases k with
  | mk n a b ds u => cases u <;> cases a <;> cases b <;> rfl

/-- A serialized aggregate reads back unchanged. -/
theorem decodeData_encodeData (d : DashboardData) : decodeData (encodeData d) = some d := by
  cases d with
  | mk a p k lu =>
    simp [encodeData, decodeData,
          decodeListWith_map decodeItem encodeItem decodeItem_encodeItem,
          decodeListWith_map decodeKPI encodeKPI decodeKPI_encodeKPI]

/-- **C5.** `save` followed by `load` hands back the stored blob without a
logged failure, and that blob is deep-equal to the original aggregate —
the round-trip law, for any aggregate including one with empty lists. -/
theorem save_load_roundtrip (d : DashboardData) (st : Store) :
    (loadData (saveData st d)).result = some (encodeData d) ∧
    (loadData (saveData st d)).loggedError = false ∧
    decodeData (encodeData d) = some d := by
  have hkey : saveData st d STORAGE_KEY = some (StoredText.json (encodeData d)) := by
    simp [saveData, storeSet]
  refine ⟨?_, ?_, decodeData_encodeData d⟩ <;>
    simp [loadData, hkey, StoredText.falsy, jsonParse]

/-- **C6.** `load` returns `null` (not an error) whenever the key is absent —
on a fresh store, and after `clear` — and when the stored text fails to
parse the failure is caught (and, for non-empty text, logged) and `load`
returns `null`; `clear` is idempotent. -/
theorem load_null_on_absent_or_malformed :
    (loadData emptyStore).result = Option.none ∧
    (∀ st : Store, (loadData (clearData st)).result = Option.none) ∧
    (∀ st : Store, ∀ s : String, st STORAGE_KEY = some (StoredText.invalid s) →
      (loadData st).result = Option.none) ∧
    (∀ st : Store, ∀ s : String, s ≠ "" → st STORAGE_KEY = some (StoredText.invalid s) →
      (loadData st).result = Option.none ∧ (loadData st).loggedError = true) ∧
    (∀ st : Store, clearData (clearData st) = clearData st) ∧
    (∀ st : Store, clearData st STORAGE_KEY = Option.none) := by
  refine ⟨rfl, ?_, ?_, ?_, ?_, ?_⟩
  · intro st; simp [loadData, clearData, storeRemove]
  · intro st s h
    by_cases hs : s = "" <;> simp [loadData, h, StoredText.falsy, jsonParse, hs]
  · intro st s hs h
    simp [loadData, h, StoredText.falsy, jsonParse, hs]
  · intro st
    funext k
    by_cases hk : k = STORAGE_KEY <;> simp [clearData, storeRemove, hk]
  · intro st; simp [clearData, storeRemove]

/-- Witness for C6: on a store whose only key holds the malformed text
`"not json"`, `load` yields `null` with a logged failure, and clearing an
empty store twice equals clearing it once. -/
theorem load_null_on_absent_or_malformed_witness :
    (loadData (storeSet emptyStore STORAGE_KEY (StoredText.invalid "not json"))).result
      = Option.none ∧
    (loadData (storeSet emptyStore STORAGE_KEY (StoredText.invalid "not json"))).loggedError
      = true ∧
    (loadData (clearData emptyStore)).result = Option.none ∧
    clearData (clearData emptyStore) = clearData emptyStore := by
  have hkey : storeSet emptyStore STORAGE_KEY (StoredText.invalid "not json") STORAGE_KEY
      = some (StoredText.invalid "not json") := by
    simp [storeSet]
  have h := load_null_on_absent_or_malformed.2.2.2.1
    (storeSet emptyStore STORAGE_KEY (StoredText.invalid "not json")) "not json"
    (by decide) hkey
  exact ⟨h.1, h.2, load_null_on_absent_or_malformed.2.1 emptyStore,
         load_null_on_absent_or_malformed.2.2.2.2.1 emptyStore⟩

/-- **C10.** The adapter touches only the fixed storage key: any sequence of
save, load and clear calls leaves every other key of the store unchanged. -/
theorem adapter_frame (ops : List DbOp) (st : Store) (k : String)
    (hk : k ≠ STORAGE_KEY) : runOps ops st k = st k := by
  induction ops generalizing st with
  | nil => rfl
  | cons op rest ih =>
    have hone : applyDbOp st op k = st k := by
      cases op with
      | save d => simp [applyDbOp, saveData, storeSet, hk]
      | load => rfl
      | clear => simp [applyDbOp, clearData, storeRemove, hk]
    have hrun : runOps (op :: rest) st = runOps rest (applyDbOp st op) := rfl
    rw [hrun, ih (applyDbOp st op), hone]

/-- Witness for C10: a save, a load and a clear leave the unrelated key
`"OTHER_KEY"` of a fresh store unset. -/
theorem adapter_frame_witness :
    runOps [DbOp.save ⟨[], [], [], ""⟩, DbOp.load, DbOp.clear] emptyStore "OTHER_KEY"
      = Option.none := by
  have h := adapter_frame [DbOp.save ⟨[], [], [], ""⟩, DbOp.load, DbOp.clear]
    emptyStore "OTHER_KEY" (by decide)
  exact h.trans rfl

/-! ## Claim theorems: insight requester -/

/-- **C7.** The insight requester never raises: it returns the remote
text of the remote service when the call succeeds with a non-empty body
and a fixed
user-facing fallback when the call fails; every result is one of those
three strings; and with no `isTotal` item in either list the prompt is
still built, with `0` as both totals. -/
theorem insights_never_raise :
    (∀ data : DashboardData, ∀ f : String → RemoteOutcome, ∀ t : String,
      f (insightPrompt data) = RemoteOutcome.success t → t ≠ "" →
      getFinancialInsights f data = t) ∧
    (∀ data : DashboardData, ∀ f : String → RemoteOutcome,
      f (insightPrompt data) = RemoteOutcome.failure →
      getFinancialInsights f data = aiErrorMsg) ∧
    (∀ data : DashboardData, ∀ f : String → RemoteOutcome,
      getFinancialInsights f data = aiErrorMsg ∨
      getFinancialInsights f data = emptyInsightsMsg ∨
      ∃ t, f (insightPrompt data) = RemoteOutcome.success t ∧
        getFinancialInsights f data = t) ∧
    (∀ data : DashboardData,
      (∀ i ∈ data.ativo, i.isTotal = false) → (∀ i ∈ data.passivo, i.isTotal = false) →
      insightPrompt data = insightPromptOf 0 0 data.kpis) := by
  refine ⟨?_, ?_, ?_, ?_⟩
  · intro data f t hf ht
    simp [getFinancialInsights, hf, ht]
  · intro data f hf
    simp [getFinancialInsights, hf]
  · intro data f
    cases hf : f (insightPrompt data) with
    | success t =>
      by_cases ht : t = ""
      · right; left; simp [getFinancialInsights, hf, ht]
      · right; right; exact ⟨t, rfl, by simp [getFinancialInsights, hf, ht]⟩
    | failure => left; simp [getFinancialInsights, hf]
  · intro data h1 h2
    have hfa : data.ativo.find? (fun x => x.isTotal) = Option.none := by
      simp only [List.find?_eq_none]
      intro j hj; simp [h1 j hj]
    have hfp : data.passivo.find? (fun x => x.isTotal) = Option.none := by
      simp only [List.find?_eq_none]
      intro j hj; simp [h2 j hj]
    simp [insightPrompt, hfa, hfp, jsOrZero]

/-- Witness for C7: on an aggregate with no total rows, a failing remote
call yields the connection-error fallback, a successful one hands back its
text, and the prompt is the template at totals `0` and `0`. -/
theorem insights_never_raise_witness :
    getFinancialInsights (fun _ => RemoteOutcome.failure)
      { ativo := [], passivo := [], kpis := [], lastUpdated := "" } = aiErrorMsg ∧
    getFinancialInsights (fun _ => RemoteOutcome.success "ok")
      { ativo := [], passivo := [], kpis := [], lastUpdated := "" } = "ok" ∧
    insightPrompt { ativo := [], passivo := [], kpis := [], lastUpdated := "" } =
      insightPromptOf 0 0 [] := by
  refine ⟨insights_never_raise.2.1 _ _ rfl,
          insights_never_raise.1 _ _ "ok" rfl (by decide),
          insights_never_raise.2.2.2 _ (by simp) (by simp)⟩

/-- **C8.** A successful remote call with an empty body yields a distinct
fixed fallback — never the empty string — and that fallback differs from
the one returned when the remote call fails. -/
theorem empty_response_fallback :
    (∀ data : DashboardData, ∀ f : String → RemoteOutcome,
      f (insightPrompt data) = RemoteOutcome.success "" →
      getFinancialInsights f data = emptyInsightsMsg) ∧
    emptyInsightsMsg ≠ "" ∧
    emptyInsightsMsg ≠ aiErrorMsg := by
  refine ⟨?_, by decide, by decide⟩
  intro data f hf
  simp [getFinancialInsights, hf]

/-- Witness for C8: an empty response body on an empty aggregate yields the
could-not-generate fallback. -/
theorem empty_response_fallback_witness :
    getFinancialInsights (fun _ => RemoteOutcome.success "")
      { ativo := [], passivo := [], kpis := [], lastUpdated := "" } = emptyInsightsMsg :=
  empty_response_fallback.1 _ _ rfl
end ProActive
